import Mathlib

/-!
# Codepoint transcoding: the UTF8, UTF16 and UTF32 codecs of `main.go`

The program renders a codepoint (`uint64`) as a textual bit-string
(`Encode`) and reads such a bit-string back (`Decode`), for the three
Unicode encoding forms.  The three codecs are embedded below together with
the parts of the Go runtime they rely on: slice expressions, the verbs
`%0Nb` and `%Ns` of `fmt.Sprintf`, `strings.HasPrefix` and
`strconv.ParseUint(_, 2, 64)`.

Conventions.
* A Go string is a list of characters, one per byte; every string the
  codecs build is ASCII.
* A `uint64` is a natural number; arithmetic that can wrap is reduced
  modulo `2 ^ 64` explicitly.
* A slice expression out of range panics in Go; a computation that may
  panic returns an `Option`, and `none` stands for the panic.
-/

namespace Codepoint

/-! ## Go runtime -/

/-- A Go string: a sequence of bytes, each one written as a character. -/
abbrev GoString := List Char

/-- The slice expression `s[lo:hi]`.  Go panics unless
`lo ≤ hi ≤ len(s)`; the panic is `none`. -/
def slice (s : GoString) (lo hi : Nat) : Option GoString :=
  if lo ≤ hi ∧ hi ≤ s.length then some ((s.drop lo).take (hi - lo)) else none

/-- The slice expression `s[:hi]`. -/
def sliceTo (s : GoString) (hi : Nat) : Option GoString :=
  slice s 0 hi

/-- The slice expression `s[lo:]`. -/
def sliceFrom (s : GoString) (lo : Nat) : Option GoString :=
  slice s lo s.length

/-- The function `strings.HasPrefix(s, p)`:
`len(s) >= len(p) && s[:len(p)] == p`. -/
def HasPrefix (s p : GoString) : Bool :=
  decide (p.length ≤ s.length) && (s.take p.length == p)

/-- The digit table of package `fmt`. -/
def ldigits : List Char := "0123456789abcdefx".toList

/-- The digit loop of `fmt.fmtInteger` in base 2, writing right to left in
front of `acc`:
`for u >= 2 { i--; buf[i] = digits[u&1]; u >>= 1 }; i--; buf[i] = digits[u]`.
The first argument bounds the number of iterations; a `uint64` needs at
most 63 of them. -/
def fmtDigits : Nat → Nat → List Char → List Char
  | 0, u, acc => ldigits.getD u '0' :: acc
  | fuel + 1, u, acc =>
    if 2 ≤ u then fmtDigits fuel (u >>> 1) (ldigits.getD (u &&& 1) '0' :: acc)
    else ldigits.getD u '0' :: acc

/-- The verb `%0Nb` of `fmt.Sprintf` applied to a `uint64`: the binary
digits of `u`, then zeros in front while fewer than `w` characters are
written. -/
def fmtB (w u : Nat) : GoString :=
  let ds := fmtDigits 64 u []
  List.replicate (w - ds.length) '0' ++ ds

/-- The verb `%Ns` of `fmt.Sprintf`: the string, with blanks in front while
it is shorter than `w`. -/
def fmtS (w : Nat) (s : GoString) : GoString :=
  List.replicate (w - s.length) ' ' ++ s

/-- The two errors of `strconv.ParseUint`. -/
inductive NumError where
  | errSyntax
  | errRange
  deriving DecidableEq, Repr

/-- The helper `lower` of package `strconv`: `c | ('x' - 'X')`. -/
def lower (c : Char) : Char :=
  Char.ofNat (c.toNat ||| ('x'.toNat - 'X'.toNat))

/-- The digit value `strconv.ParseUint` assigns to a byte, `none` for a byte
that is neither a decimal digit nor a letter. -/
def digitVal (c : Char) : Option Nat :=
  if '0'.toNat ≤ c.toNat ∧ c.toNat ≤ '9'.toNat then some (c.toNat - '0'.toNat)
  else if 'a'.toNat ≤ (lower c).toNat ∧ (lower c).toNat ≤ 'z'.toNat then
    some ((lower c).toNat - 'a'.toNat + 10)
  else none

/-- The largest `uint64`. -/
def maxUint64 : Nat := 2 ^ 64 - 1

/-- The loop of `strconv.ParseUint(s, 2, 64)` over the bytes still to read,
with `n` the value read so far.  A byte that is no binary digit ends the
loop with `(0, ErrSyntax)`; a value that no longer fits ends it with
`(maxUint64, ErrRange)`. -/
def parseLoop : List Char → Nat → Nat × Option NumError
  | [], n => (n, none)
  | c :: cs, n =>
    match digitVal c with
    | none => (0, some NumError.errSyntax)
    | some d =>
      if 2 ≤ d then (0, some NumError.errSyntax)
      else if maxUint64 / 2 + 1 ≤ n then (maxUint64, some NumError.errRange)
      else
        let n2 := (n * 2) % 2 ^ 64
        let n1 := (n2 + d) % 2 ^ 64
        if n1 < n2 ∨ maxUint64 < n1 then (maxUint64, some NumError.errRange)
        else parseLoop cs n1

/-- The call `strconv.ParseUint(s, 2, 64)`: value and error. -/
def ParseUint (s : GoString) : Nat × Option NumError :=
  if s = [] then (0, some NumError.errSyntax) else parseLoop s 0

/-! ## The codecs -/

/-- The method `(*UTF8).Encode`. -/
def UTF8.Encode (codepoint : Nat) : Option GoString :=
  if codepoint ≤ 0x7F then
    some (fmtB 8 codepoint)
  else if codepoint ≤ 0x7FF then do
    let txt := fmtB 11 codepoint
    let a ← sliceTo txt 5
    let b ← sliceFrom txt 5
    some ("110".toList ++ fmtS 5 a ++ "106".toList ++ b)
  else if codepoint ≤ 0xFFFF then do
    let txt := fmtB 16 codepoint
    let a ← sliceTo txt 4
    let b ← slice txt 4 10
    let c ← sliceFrom txt 10
    some ("1110".toList ++ fmtS 4 a ++ "10".toList ++ fmtS 6 b ++ "10".toList ++ fmtS 6 c)
  else if codepoint ≤ 0x10FFFF then do
    let txt := fmtB 21 codepoint
    let a ← sliceTo txt 3
    let b ← slice txt 3 9
    let c ← slice txt 9 15
    let d ← sliceFrom txt 15
    some ("11110".toList ++ fmtS 3 a ++ "10".toList ++ fmtS 6 b ++ "10".toList ++ fmtS 6 c
      ++ "10".toList ++ fmtS 6 d)
  else
    some []

/-- The method `(*UTF8).Decode`; the error of `ParseUint` is dropped, as in
the source. -/
def UTF8.Decode (txt : GoString) : Option Nat :=
  if HasPrefix txt "11110".toList then do
    let a ← slice txt 5 8
    let b ← slice txt 10 16
    let c ← slice txt 18 24
    let d ← sliceFrom txt 26
    some (ParseUint (a ++ b ++ c ++ d)).1
  else if HasPrefix txt "1110".toList then do
    let a ← slice txt 4 8
    let b ← slice txt 10 16
    let c ← sliceFrom txt 18
    some (ParseUint (a ++ b ++ c)).1
  else if HasPrefix txt "110".toList then do
    let a ← slice txt 3 8
    let b ← sliceFrom txt 10
    some (ParseUint (a ++ b)).1
  else
    some (ParseUint txt).1

/-- The method `(*UTF16).Encode`. -/
def UTF16.Encode (codepoint : Nat) : Option GoString :=
  if codepoint ≤ 0xFFFF then
    if 0xD800 ≤ codepoint ∧ codepoint ≤ 0xDFFF then
      some []
    else
      some (fmtB 16 codepoint)
  else if codepoint ≤ 0x10FFFF then do
    let codepoint := codepoint - 0x10000
    let txt := fmtB 20 codepoint
    let a ← sliceTo txt 10
    let b ← sliceFrom txt 10
    some ("110110".toList ++ fmtS 10 a ++ "110111".toList ++ fmtS 10 b)
  else
    some []

/-- The method `(*UTF16).Decode`. -/
def UTF16.Decode (txt : GoString) : Option Nat :=
  if HasPrefix txt "11011".toList then do
    let a ← slice txt 6 16
    let b ← sliceFrom txt 22
    let codepoint := (ParseUint (a ++ b)).1
    some ((codepoint + 0x10000) % 2 ^ 64)
  else
    some (ParseUint txt).1

/-- The method `(*UTF32).Encode`. -/
def UTF32.Encode (codepoint : Nat) : GoString :=
  fmtB 32 codepoint

/-- The method `(*UTF32).Decode`. -/
def UTF32.Decode (txt : GoString) : Nat :=
  (ParseUint txt).1

/-! ## Reference notions used to state the layout -/

/-- The binary representation of `n` zero-padded on the left to `w` bits:
the `w`-character string whose character at position `i`, counted from the
left, shows bit `w - 1 - i` of `n`. -/
def binPad (w n : Nat) : GoString :=
  (List.range w).map fun i => if n.testBit (w - 1 - i) then '1' else '0'

/-- The characters `p[lo..hi)` of a string. -/
def sub (p : GoString) (lo hi : Nat) : GoString :=
  (p.drop lo).take (hi - lo)

/-- The layout table of Form8 as the specification words it: the tag of
the range of `c`, the payload being `c` zero-padded to 7, 11, 16 or 21 bits
and cut 7 / 5+6 / 4+6+6 / 3+6+6+6 from left to right, each continuation
unit opening with `10`. -/
def layoutTable (c : Nat) : GoString :=
  if c ≤ 0x7F then
    "0".toList ++ binPad 7 c
  else if c ≤ 0x7FF then
    "110".toList ++ sub (binPad 11 c) 0 5 ++ "10".toList ++ sub (binPad 11 c) 5 11
  else if c ≤ 0xFFFF then
    "1110".toList ++ sub (binPad 16 c) 0 4 ++ "10".toList ++ sub (binPad 16 c) 4 10
      ++ "10".toList ++ sub (binPad 16 c) 10 16
  else
    "11110".toList ++ sub (binPad 21 c) 0 3 ++ "10".toList ++ sub (binPad 21 c) 3 9
      ++ "10".toList ++ sub (binPad 21 c) 9 15 ++ "10".toList ++ sub (binPad 21 c) 15 21

/-! ## The formatted digits are the padded binary representation -/

theorem binPad_length (w n : Nat) : (binPad w n).length = w := by
  simp [binPad]

theorem binPad_cons (k u : Nat) :
    binPad (k + 1) u = (if u.testBit k then '1' else '0') :: binPad k u := by
  simp only [binPad, List.range_succ_eq_map, List.map_cons, List.map_map]
  congr 1
  apply List.map_congr_left
  intro i hi
  have hi2 : i < k := List.mem_range.mp hi
  have e : k - (i + 1) = k - 1 - i := by omega
  simp [Function.comp, e]

theorem binPad_snoc (k u : Nat) :
    binPad (k + 1) u = binPad k (u / 2) ++ [if u.testBit 0 then '1' else '0'] := by
  simp only [binPad, List.range_succ, List.map_append, List.map_cons, List.map_nil]
  congr 1
  · apply List.map_congr_left
    intro i hi
    have hi2 : i < k := List.mem_range.mp hi
    have e : k + 1 - 1 - i = (k - 1 - i) + 1 := by omega
    rw [e, Nat.testBit_succ]
  · have e : k + 1 - 1 - k = 0 := by omega
    rw [e]

theorem binPad_of_lt_two (k u : Nat) (hu : u < 2) :
    binPad (k + 1) u = List.replicate k '0' ++ [ldigits.getD u '0'] := by
  have h0 : binPad k (u / 2) = List.replicate k '0' := by
    have e : u / 2 = 0 := by omega
    rw [e]
    simp only [binPad, Nat.zero_testBit]
    induction k with
    | zero => rfl
    | succ k ih =>
      rw [List.range_succ_eq_map, List.map_cons, List.map_map, List.replicate_succ]
      congr 1
  rw [binPad_snoc, h0]
  congr 2
  interval_cases u <;> rfl

theorem ldigits_bit (u : Nat) :
    ldigits.getD (u % 2) '0' = if u.testBit 0 then '1' else '0' := by
  rcases Nat.mod_two_eq_zero_or_one u with h | h <;> simp [h, Nat.testBit_zero] <;> rfl

theorem fmtDigits_spec : ∀ (k fuel u : Nat) (acc : List Char), u < 2 ^ (k + 1) → k ≤ fuel →
    ∃ z L, fmtDigits fuel u acc = L ++ acc ∧ List.replicate z '0' ++ L = binPad (k + 1) u := by
  intro k
  induction k with
  | zero =>
    intro fuel u acc hu _
    have hu2 : u < 2 := by simpa using hu
    refine ⟨0, [ldigits.getD u '0'], ?_, ?_⟩
    · cases fuel with
      | zero => rfl
      | succ f =>
        have : ¬ 2 ≤ u := by omega
        simp [fmtDigits, this]
    · rw [binPad_of_lt_two 0 u hu2]
  | succ k ih =>
    intro fuel u acc hu hf
    obtain ⟨f, rfl⟩ : ∃ f, fuel = f + 1 := ⟨fuel - 1, by omega⟩
    by_cases h2 : 2 ≤ u
    · have hu2 : u / 2 < 2 ^ (k + 1) := by
        have : 2 ^ (k + 1 + 1) = 2 * 2 ^ (k + 1) := by ring
        omega
      obtain ⟨z, L, h1, h3⟩ := ih f (u / 2) (ldigits.getD (u % 2) '0' :: acc) hu2 (by omega)
      refine ⟨z, L ++ [ldigits.getD (u % 2) '0'], ?_, ?_⟩
      · simp only [fmtDigits, h2, if_true, Nat.and_one_is_mod, Nat.shiftRight_succ,
          Nat.shiftRight_zero, h1]
        simp
      · rw [binPad_snoc, ← h3, ldigits_bit, List.append_assoc]
    · have hu2 : u < 2 := by omega
      refine ⟨k + 1, [ldigits.getD u '0'], ?_, ?_⟩
      · simp [fmtDigits, h2]
      · rw [binPad_of_lt_two (k + 1) u hu2]

/-- On a value that fits in `w` bits, `1 ≤ w ≤ 64`, the verb `%0wb` prints
the binary representation padded to `w` bits. -/
theorem fmtB_eq_binPad (w u : Nat) (hw : 1 ≤ w) (hw64 : w ≤ 64) (hu : u < 2 ^ w) :
    fmtB w u = binPad w u := by
  obtain ⟨k, rfl⟩ : ∃ k, w = k + 1 := ⟨w - 1, by omega⟩
  obtain ⟨z, L, h1, h2⟩ := fmtDigits_spec k 64 u [] hu (by omega)
  have hl : z + L.length = k + 1 := by
    have := congrArg List.length h2
    simpa [binPad_length] using this
  have e : k + 1 - L.length = z := by omega
  simp only [fmtB, h1, List.append_nil, e]
  exact h2

/-! ## Parsing the padded binary representation -/

theorem digitVal_zero : digitVal '0' = some 0 := by decide

theorem digitVal_one : digitVal '1' = some 1 := by decide

theorem parseLoop_binPad : ∀ (k u n : Nat), n * 2 ^ k + u % 2 ^ k < 2 ^ 64 →
    parseLoop (binPad k u) n = (n * 2 ^ k + u % 2 ^ k, none) := by
  intro k
  induction k with
  | zero =>
    intro u n _
    simp [binPad, parseLoop, Nat.mod_one]
  | succ k ih =>
    intro u n h
    have hm : u % 2 ^ (k + 1) = u % 2 ^ k + 2 ^ k * (u / 2 ^ k % 2) := Nat.mod_pow_succ
    have hp : 2 ^ (k + 1) = 2 * 2 ^ k := by ring
    have hpos : 0 < 2 ^ k := Nat.two_pow_pos k
    have hnp : n * 2 ^ (k + 1) = 2 * (n * 2 ^ k) := by rw [hp]; ring
    have hn : n < 2 ^ 63 := by
      have : n ≤ n * 2 ^ k := Nat.le_mul_of_pos_right n hpos
      omega
    rw [binPad_cons]
    rcases Nat.mod_two_eq_zero_or_one (u / 2 ^ k) with hb | hb
    · have ht : u.testBit k = false := by simp [Nat.testBit_to_div_mod, hb]
      have e1 : (n * 2) % 2 ^ 64 = n * 2 := Nat.mod_eq_of_lt (by omega)
      have e2 : (n * 2 * 2 ^ k) = 2 * (n * 2 ^ k) := by ring
      have hi := ih u (n * 2) (by rw [e2]; rw [hm, hb, hnp] at h; omega)
      simp only [ht, Bool.false_eq_true, if_false, parseLoop, digitVal_zero, maxUint64]
      have c1 : ¬ (2 ^ 64 - 1) / 2 + 1 ≤ n := by omega
      simp only [c1, if_false, Nat.add_zero, e1]
      have c2 : ¬ (n * 2 < n * 2 ∨ 2 ^ 64 - 1 < n * 2) := by omega
      simp only [c2, if_false, hi]
      rw [hm, hb, hnp, e2]
      simp
    · have ht : u.testBit k = true := by simp [Nat.testBit_to_div_mod, hb]
      have e1 : (n * 2) % 2 ^ 64 = n * 2 := Nat.mod_eq_of_lt (by omega)
      have e3 : (n * 2 + 1) % 2 ^ 64 = n * 2 + 1 := Nat.mod_eq_of_lt (by omega)
      have e2 : ((n * 2 + 1) * 2 ^ k) = 2 * (n * 2 ^ k) + 2 ^ k := by ring
      have hi := ih u (n * 2 + 1) (by rw [e2]; rw [hm, hb, hnp] at h; omega)
      simp only [ht, if_true, parseLoop, digitVal_one, maxUint64]
      have c0 : ¬ 2 ≤ 1 := by omega
      have c1 : ¬ (2 ^ 64 - 1) / 2 + 1 ≤ n := by omega
      simp only [c0, c1, if_false, e1, e3]
      have c2 : ¬ (n * 2 + 1 < n * 2 ∨ 2 ^ 64 - 1 < n * 2 + 1) := by omega
      simp only [c2, if_false, hi]
      rw [hm, hb, hnp, e2]
      simp
      omega

/-- Parsing the `w`-bit representation of `u` gives `u` back, without
error. -/
theorem ParseUint_binPad (w u : Nat) (hw : 1 ≤ w) (hw64 : w ≤ 64) (hu : u < 2 ^ w) :
    ParseUint (binPad w u) = (u, none) := by
  have hne : binPad w u ≠ [] := by
    intro h
    have := congrArg List.length h
    simp [binPad_length] at this
    omega
  have hlt : u < 2 ^ 64 := lt_of_lt_of_le hu (Nat.pow_le_pow_right (by decide) hw64)
  have hmod : u % 2 ^ w = u := Nat.mod_eq_of_lt hu
  have := parseLoop_binPad w u 0 (by rw [hmod]; omega)
  simp only [ParseUint, hne, if_false, this, hmod]
  simp

/-! ## Cutting and joining padded representations -/

theorem binPad_mod (k u : Nat) : binPad k (u % 2 ^ k) = binPad k u := by
  simp only [binPad]
  apply List.map_congr_left
  intro i hi
  have hi2 : i < k := List.mem_range.mp hi
  have : k - 1 - i < k := by omega
  simp [Nat.testBit_mod_two_pow, this]

theorem binPad_take (k : Nat) : ∀ (m u : Nat),
    (binPad (k + m) u).take k = binPad k (u / 2 ^ m) := by
  intro m
  induction m with
  | zero => intro u; simp [List.take_of_length_le, binPad_length]
  | succ m ih =>
    intro u
    have e : k + (m + 1) = (k + m) + 1 := by omega
    rw [e, binPad_snoc, List.take_append_of_le_length (by simp [binPad_length]), ih,
      Nat.div_div_eq_div_mul, pow_succ, Nat.mul_comm]

theorem binPad_drop (m : Nat) : ∀ (k u : Nat),
    (binPad (k + m) u).drop k = binPad m u := by
  intro k
  induction k with
  | zero => intro u; simp
  | succ k ih =>
    intro u
    have e : k + 1 + m = (k + m) + 1 := by omega
    rw [e, binPad_cons, List.drop_succ_cons, ih]

/-- The characters `p[lo..hi)` of the `w`-bit representation of `u` are the
`hi - lo` bits of `u` that sit above its `w - hi` lowest bits. -/
theorem sub_binPad (w lo hi u : Nat) (h1 : lo ≤ hi) (h2 : hi ≤ w) :
    sub (binPad w u) lo hi = binPad (hi - lo) (u / 2 ^ (w - hi)) := by
  obtain ⟨a, rfl⟩ : ∃ a, hi = lo + a := ⟨hi - lo, by omega⟩
  obtain ⟨b, rfl⟩ : ∃ b, w = lo + a + b := ⟨w - (lo + a), by omega⟩
  have e1 : lo + a + b = lo + (a + b) := by omega
  have e2 : lo + a - lo = a := by omega
  have e3 : lo + a + b - (lo + a) = b := by omega
  rw [sub, e2, e3, e1, binPad_drop, binPad_take]

theorem binPad_append (a b h l : Nat) (hl : l < 2 ^ b) :
    binPad a h ++ binPad b l = binPad (a + b) (h * 2 ^ b + l) := by
  have hpos : 0 < 2 ^ b := Nat.two_pow_pos b
  have e1 : (h * 2 ^ b + l) / 2 ^ b = h := by
    rw [Nat.mul_comm, Nat.mul_add_div hpos, Nat.div_eq_of_lt hl, Nat.add_zero]
  have e2 : (h * 2 ^ b + l) % 2 ^ b = l := by
    rw [Nat.mul_comm, Nat.mul_add_mod, Nat.mod_eq_of_lt hl]
  rw [← List.take_append_drop a (binPad (a + b) (h * 2 ^ b + l)), binPad_take, binPad_drop,
    e1, ← binPad_mod b (h * 2 ^ b + l), e2]

theorem binPad_inj (w u v : Nat) (hw : 1 ≤ w) (hw64 : w ≤ 64) (hu : u < 2 ^ w) (hv : v < 2 ^ w)
    (h : binPad w u = binPad w v) : u = v := by
  have h1 := ParseUint_binPad w u hw hw64 hu
  have h2 := ParseUint_binPad w v hw hw64 hv
  rw [h] at h1
  rw [h1] at h2
  exact (Prod.mk.inj h2).1

theorem binPad_bit (w u : Nat) : ∀ ch ∈ binPad w u, ch = '0' ∨ ch = '1' := by
  intro ch hch
  simp only [binPad, List.mem_map] at hch
  obtain ⟨i, _, rfl⟩ := hch
  split <;> simp

/-! ## Slices and padding of strings of known length -/

theorem slice_eq_sub (s : GoString) (lo hi : Nat) (h1 : lo ≤ hi) (h2 : hi ≤ s.length) :
    slice s lo hi = some (sub s lo hi) := by
  simp [slice, sub, h1, h2]

theorem sliceTo_eq_sub (s : GoString) (hi : Nat) (h : hi ≤ s.length) :
    sliceTo s hi = some (sub s 0 hi) :=
  slice_eq_sub s 0 hi (Nat.zero_le hi) h

theorem sliceFrom_eq_sub (s : GoString) (lo : Nat) (h : lo ≤ s.length) :
    sliceFrom s lo = some (sub s lo s.length) :=
  slice_eq_sub s lo s.length h (Nat.le_refl _)

theorem fmtS_of_le (w : Nat) (s : GoString) (h : w ≤ s.length) : fmtS w s = s := by
  have e : w - s.length = 0 := by omega
  simp [fmtS, e]

theorem exists_cons_of_length {l : GoString} {n : Nat} (h : l.length = n + 1) :
    ∃ a t, l = a :: t ∧ t.length = n := by
  cases l with
  | nil => simp at h
  | cons a t => exact ⟨a, t, rfl, by simpa using h⟩

/-! ## UTF16 -/

theorem UTF16_Encode_pair_bits (c : Nat) (h1 : 0x10000 ≤ c) (h2 : c ≤ 0x10FFFF) :
    UTF16.Encode c = some ("110110".toList ++ binPad 10 ((c - 0x10000) / 2 ^ 10)
      ++ "110111".toList ++ binPad 10 (c - 0x10000)) := by
  have hv : c - 0x10000 < 2 ^ 20 := by omega
  have c1 : ¬ c ≤ 0xFFFF := by omega
  have hf := fmtB_eq_binPad 20 (c - 0x10000) (by omega) (by omega) hv
  have ha := sliceTo_eq_sub (binPad 20 (c - 0x10000)) 10 (by simp [binPad_length])
  have hb := sliceFrom_eq_sub (binPad 20 (c - 0x10000)) 10 (by simp [binPad_length])
  rw [binPad_length, sub_binPad 20 10 20 _ (by omega) (by omega)] at hb
  rw [sub_binPad 20 0 10 _ (by omega) (by omega)] at ha
  simp only [UTF16.Encode, c1, h2, if_false, if_true, hf, ha, hb, Option.bind_eq_bind,
    Option.some_bind]
  rw [fmtS_of_le _ _ (by simp [binPad_length]), fmtS_of_le _ _ (by simp [binPad_length])]
  simp

theorem UTF16_Decode_pair (A B : GoString) (hA : A.length = 10) (hB : B.length = 10) :
    UTF16.Decode ("110110".toList ++ A ++ "110111".toList ++ B)
      = some (((ParseUint (A ++ B)).1 + 0x10000) % 2 ^ 64) := by
  obtain ⟨a0, A0, rfl, h0⟩ := exists_cons_of_length hA
  obtain ⟨a1, A1, rfl, h1⟩ := exists_cons_of_length h0
  obtain ⟨a2, A2, rfl, h2⟩ := exists_cons_of_length h1
  obtain ⟨a3, A3, rfl, h3⟩ := exists_cons_of_length h2
  obtain ⟨a4, A4, rfl, h4⟩ := exists_cons_of_length h3
  obtain ⟨a5, A5, rfl, h5⟩ := exists_cons_of_length h4
  obtain ⟨a6, A6, rfl, h6⟩ := exists_cons_of_length h5
  obtain ⟨a7, A7, rfl, h7⟩ := exists_cons_of_length h6
  obtain ⟨a8, A8, rfl, h8⟩ := exists_cons_of_length h7
  obtain ⟨a9, A9, rfl, h9⟩ := exists_cons_of_length h8
  obtain rfl : A9 = [] := List.length_eq_zero.mp h9
  have hp : HasPrefix ("110110".toList ++ [a0, a1, a2, a3, a4, a5, a6, a7, a8, a9]
      ++ "110111".toList ++ B) "11011".toList = true := rfl
  have hs1 : slice ("110110".toList ++ [a0, a1, a2, a3, a4, a5, a6, a7, a8, a9]
      ++ "110111".toList ++ B) 6 16 = some [a0, a1, a2, a3, a4, a5, a6, a7, a8, a9] := by
    simp [slice, hB]
  have hs2 : sliceFrom ("110110".toList ++ [a0, a1, a2, a3, a4, a5, a6, a7, a8, a9]
      ++ "110111".toList ++ B) 22 = some B := by
    simp [sliceFrom, slice, hB]
  simp only [UTF16.Decode, hp, if_true, hs1, hs2, Option.bind_eq_bind, Option.some_bind]

theorem HasPrefix_binPad (k m c t : Nat) (hk : 1 ≤ k) (hk64 : k ≤ 64) (ht : t < 2 ^ k)
    (hc : c < 2 ^ (k + m)) :
    HasPrefix (binPad (k + m) c) (binPad k t) = decide (c / 2 ^ m = t) := by
  have hq : c / 2 ^ m < 2 ^ k := by
    apply Nat.div_lt_of_lt_mul
    rw [← pow_add, Nat.add_comm]
    exact hc
  have hlen : k ≤ k + m := by omega
  simp only [HasPrefix, binPad_length, hlen, decide_True, Bool.true_and, binPad_take]
  by_cases h : c / 2 ^ m = t
  · simp [h]
  · have : binPad k (c / 2 ^ m) ≠ binPad k t := fun e => h (binPad_inj k _ _ hk hk64 hq ht e)
    simp [h, this]

theorem UTF16_Encode_single (c : Nat) (h1 : c ≤ 0xFFFF) (h2 : ¬ (0xD800 ≤ c ∧ c ≤ 0xDFFF)) :
    UTF16.Encode c = some (binPad 16 c) := by
  have hf := fmtB_eq_binPad 16 c (by omega) (by omega) (by omega)
  simp only [UTF16.Encode, h1, h2, if_true, if_false, hf]

theorem UTF16_Decode_single (c : Nat) (h1 : c ≤ 0xFFFF) (h2 : ¬ (0xD800 ≤ c ∧ c ≤ 0xDFFF)) :
    UTF16.Decode (binPad 16 c) = some c := by
  have e : "11011".toList = binPad 5 27 := by decide
  have hp : HasPrefix (binPad 16 c) "11011".toList = false := by
    rw [e, HasPrefix_binPad 5 11 c 27 (by omega) (by omega) (by omega) (by omega)]
    have : ¬ c / 2 ^ 11 = 27 := by omega
    exact decide_eq_false this
  have hv := ParseUint_binPad 16 c (by omega) (by omega) (by omega)
  simp only [UTF16.Decode, hp, Bool.false_eq_true, if_false, hv]

/-- C2.  Round trip for Form16: for every codepoint `c` with
`c ≤ 0x10FFFF` outside the surrogate range `[0xD800, 0xDFFF]`,
`UTF16.Encode` returns a string (no panic) and `UTF16.Decode` maps that
string back to `c`; this covers the boundary `0xFFFF` / `0x10000` and the
maximum `0x10FFFF`. -/
theorem UTF16_roundtrip (c : Nat) (hc : c ≤ 0x10FFFF) (hs : ¬ (0xD800 ≤ c ∧ c ≤ 0xDFFF)) :
    (UTF16.Encode c).bind UTF16.Decode = some c := by
  by_cases h1 : c ≤ 0xFFFF
  · rw [UTF16_Encode_single c h1 hs, Option.some_bind, UTF16_Decode_single c h1 hs]
  · have hv : c - 0x10000 < 2 ^ 20 := by omega
    have hj : binPad 10 ((c - 0x10000) / 2 ^ 10) ++ binPad 10 (c - 0x10000)
        = binPad 20 (c - 0x10000) := by
      have := List.take_append_drop 10 (binPad (10 + 10) (c - 0x10000))
      rwa [binPad_take, binPad_drop] at this
    rw [UTF16_Encode_pair_bits c (by omega) hc, Option.some_bind,
      UTF16_Decode_pair _ _ (binPad_length _ _) (binPad_length _ _), hj,
      ParseUint_binPad 20 _ (by omega) (by omega) hv]
    have e : (c - 0x10000 + 0x10000) % 2 ^ 64 = c := by omega
    simp only [e]

/-- C2, instance: the round trip at the first codepoint that needs a
surrogate pair. -/
theorem UTF16_roundtrip_witness :
    (UTF16.Encode 0x10000).bind UTF16.Decode = some 0x10000 :=
  UTF16_roundtrip 0x10000 (by decide) (by decide)

/-- C8.  Surrogate-pair layout of Form16: for `0x10000 ≤ c ≤ 0x10FFFF` and
`v = c - 0x10000`, `UTF16.Encode c` is the 16-bit binary of
`0xD800 | (v >> 10)` followed by the 16-bit binary of `0xDC00 | (v & 0x3FF)`,
that is `110110`, the high 10 bits of `v`, `110111`, the low 10 bits of `v`,
32 characters in all; `UTF16.Encode 0x10000` is
`1101100000000000` followed by `1101110000000000`. -/
theorem UTF16_Encode_pair_layout (c : Nat) (h1 : 0x10000 ≤ c) (h2 : c ≤ 0x10FFFF) :
    UTF16.Encode c = some (binPad 16 (0xD800 ||| ((c - 0x10000) >>> 10))
        ++ binPad 16 (0xDC00 ||| ((c - 0x10000) &&& 0x3FF)))
    ∧ UTF16.Encode c = some ("110110".toList ++ binPad 10 ((c - 0x10000) >>> 10)
        ++ "110111".toList ++ binPad 10 ((c - 0x10000) &&& 0x3FF))
    ∧ (UTF16.Encode c).map List.length = some 32
    ∧ UTF16.Encode 0x10000
        = some ("1101100000000000".toList ++ "1101110000000000".toList) := by
  have hv : c - 0x10000 < 2 ^ 20 := by omega
  have hhi : (c - 0x10000) >>> 10 = (c - 0x10000) / 2 ^ 10 := Nat.shiftRight_eq_div_pow _ _
  have hlo : (c - 0x10000) &&& 0x3FF = (c - 0x10000) % 2 ^ 10 :=
    Nat.and_pow_two_sub_one_eq_mod (c - 0x10000) 10
  have hhi_lt : (c - 0x10000) / 2 ^ 10 < 2 ^ 10 := by omega
  have hlo_lt : (c - 0x10000) % 2 ^ 10 < 2 ^ 10 := Nat.mod_lt _ (by decide)
  have eD8 : "110110".toList = binPad 6 54 := by decide
  have eDC : "110111".toList = binPad 6 55 := by decide
  have oD8 : 0xD800 ||| (c - 0x10000) / 2 ^ 10 = 54 * 2 ^ 10 + (c - 0x10000) / 2 ^ 10 := by
    have := Nat.mul_add_lt_is_or hhi_lt 54
    rw [← this]; ring
  have oDC : 0xDC00 ||| (c - 0x10000) % 2 ^ 10 = 55 * 2 ^ 10 + (c - 0x10000) % 2 ^ 10 := by
    have := Nat.mul_add_lt_is_or hlo_lt 55
    rw [← this]; ring
  have hbits := UTF16_Encode_pair_bits c h1 h2
  rw [← binPad_mod 10 (c - 0x10000)] at hbits
  refine ⟨?_, ?_, ?_, by decide⟩
  · rw [hbits, hhi, hlo, oD8, oDC, ← binPad_append 6 10 54 _ hhi_lt,
      ← binPad_append 6 10 55 _ hlo_lt, ← eD8, ← eDC]
    simp
  · rw [hbits, hhi, hlo]
  · rw [hbits]
    simp [binPad_length]

/-- C8, instance: the layout at the largest codepoint. -/
theorem UTF16_Encode_pair_layout_witness :
    UTF16.Encode 0x10FFFF = some (binPad 16 (0xD800 ||| ((0x10FFFF - 0x10000) >>> 10))
        ++ binPad 16 (0xDC00 ||| ((0x10FFFF - 0x10000) &&& 0x3FF))) :=
  (UTF16_Encode_pair_layout 0x10FFFF (by decide) (by decide)).1

/-- C9.  `UTF16.Encode` returns the empty string exactly for the codepoints
of the surrogate range `[0xD800, 0xDFFF]` and those above `0x10FFFF`; and it
never returns a single 16-bit unit whose value `s` is a surrogate. -/
theorem UTF16_Encode_empty_iff (c : Nat) :
    (UTF16.Encode c = some [] ↔ (0xD800 ≤ c ∧ c ≤ 0xDFFF) ∨ 0x10FFFF < c)
    ∧ ∀ s, 0xD800 ≤ s → s ≤ 0xDFFF → UTF16.Encode c ≠ some (binPad 16 s) := by
  have hne : ∀ w u, 1 ≤ w → ([] : GoString) ≠ binPad w u := by
    intro w u hw h
    have := congrArg List.length h
    simp [binPad_length] at this
    omega
  by_cases h1 : c ≤ 0xFFFF
  · by_cases h2 : 0xD800 ≤ c ∧ c ≤ 0xDFFF
    · have he : UTF16.Encode c = some [] := by simp [UTF16.Encode, h1, h2]
      refine ⟨by simp [he, h2], ?_⟩
      intro s _ _ h
      rw [he] at h
      exact hne 16 s (by omega) (Option.some.inj h)
    · have he := UTF16_Encode_single c h1 h2
      constructor
      · constructor
        · intro h
          rw [he] at h
          exact absurd (Option.some.inj h).symm (hne 16 c (by omega))
        · intro h
          rcases h with h | h
          · exact absurd h h2
          · omega
      · intro s hs1 hs2 h
        rw [he] at h
        have := binPad_inj 16 c s (by omega) (by omega) (by omega) (by omega) (Option.some.inj h)
        omega
  · by_cases h3 : c ≤ 0x10FFFF
    · have hl : (UTF16.Encode c).map List.length = some 32 := by
        rw [UTF16_Encode_pair_bits c (by omega) h3]
        simp [binPad_length]
      constructor
      · constructor
        · intro h
          rw [h] at hl
          simp at hl
        · intro h
          rcases h with h | h <;> omega
      · intro s _ _ h
        rw [h] at hl
        simp [binPad_length] at hl
    · have he : UTF16.Encode c = some [] := by simp [UTF16.Encode, h1, h3]
      refine ⟨⟨fun _ => Or.inr (by omega), fun _ => he⟩, ?_⟩
      intro s _ _ h
      rw [he] at h
      exact hne 16 s (by omega) (Option.some.inj h)

/-- C9, instance: the first surrogate is encoded as the empty string, and
the encoding of `0x41` is not the unit of value `0xD800`. -/
theorem UTF16_Encode_empty_iff_witness :
    UTF16.Encode 0xD800 = some [] ∧ UTF16.Encode 0x41 ≠ some (binPad 16 0xD800) :=
  ⟨(UTF16_Encode_empty_iff 0xD800).1.mpr (Or.inl ⟨by decide, by decide⟩),
    (UTF16_Encode_empty_iff 0x41).2 0xD800 (by decide) (by decide)⟩

/-! ## UTF8 and UTF32 -/

theorem UTF8_Encode_one (c : Nat) (h : c ≤ 0x7F) : UTF8.Encode c = some (binPad 8 c) := by
  have hf := fmtB_eq_binPad 8 c (by omega) (by omega) (by omega)
  simp only [UTF8.Encode, h, if_true, hf]

theorem UTF8_Encode_two (c : Nat) (h1 : 0x80 ≤ c) (h2 : c ≤ 0x7FF) :
    UTF8.Encode c
      = some ("110".toList ++ binPad 5 (c / 2 ^ 6) ++ "106".toList ++ binPad 6 c) := by
  have c1 : ¬ c ≤ 0x7F := by omega
  have hf := fmtB_eq_binPad 11 c (by omega) (by omega) (by omega)
  have ha := sliceTo_eq_sub (binPad 11 c) 5 (by simp [binPad_length])
  have hb := sliceFrom_eq_sub (binPad 11 c) 5 (by simp [binPad_length])
  rw [sub_binPad 11 0 5 _ (by omega) (by omega)] at ha
  rw [binPad_length, sub_binPad 11 5 11 _ (by omega) (by omega)] at hb
  simp only [UTF8.Encode, c1, h2, if_false, if_true, hf, ha, hb, Option.bind_eq_bind,
    Option.some_bind]
  rw [fmtS_of_le _ _ (by simp [binPad_length])]
  simp

theorem UTF8_Encode_three (c : Nat) (h1 : 0x800 ≤ c) (h2 : c ≤ 0xFFFF) :
    UTF8.Encode c = some ("1110".toList ++ binPad 4 (c / 2 ^ 12) ++ "10".toList
      ++ binPad 6 (c / 2 ^ 6) ++ "10".toList ++ binPad 6 c) := by
  have c1 : ¬ c ≤ 0x7F := by omega
  have c2 : ¬ c ≤ 0x7FF := by omega
  have hf := fmtB_eq_binPad 16 c (by omega) (by omega) (by omega)
  have ha := sliceTo_eq_sub (binPad 16 c) 4 (by simp [binPad_length])
  have hb := slice_eq_sub (binPad 16 c) 4 10 (by omega) (by simp [binPad_length])
  have hc := sliceFrom_eq_sub (binPad 16 c) 10 (by simp [binPad_length])
  rw [sub_binPad 16 0 4 _ (by omega) (by omega)] at ha
  rw [sub_binPad 16 4 10 _ (by omega) (by omega)] at hb
  rw [binPad_length, sub_binPad 16 10 16 _ (by omega) (by omega)] at hc
  simp only [UTF8.Encode, c1, c2, h2, if_false, if_true, hf, ha, hb, hc, Option.bind_eq_bind,
    Option.some_bind]
  rw [fmtS_of_le _ _ (by simp [binPad_length]), fmtS_of_le _ _ (by simp [binPad_length]),
    fmtS_of_le _ _ (by simp [binPad_length])]
  simp

theorem UTF8_Encode_four (c : Nat) (h1 : 0x10000 ≤ c) (h2 : c ≤ 0x10FFFF) :
    UTF8.Encode c = some ("11110".toList ++ binPad 3 (c / 2 ^ 18) ++ "10".toList
      ++ binPad 6 (c / 2 ^ 12) ++ "10".toList ++ binPad 6 (c / 2 ^ 6) ++ "10".toList
      ++ binPad 6 c) := by
  have c1 : ¬ c ≤ 0x7F := by omega
  have c2 : ¬ c ≤ 0x7FF := by omega
  have c3 : ¬ c ≤ 0xFFFF := by omega
  have hf := fmtB_eq_binPad 21 c (by omega) (by omega) (by omega)
  have ha := sliceTo_eq_sub (binPad 21 c) 3 (by simp [binPad_length])
  have hb := slice_eq_sub (binPad 21 c) 3 9 (by omega) (by simp [binPad_length])
  have hc := slice_eq_sub (binPad 21 c) 9 15 (by omega) (by simp [binPad_length])
  have hd := sliceFrom_eq_sub (binPad 21 c) 15 (by simp [binPad_length])
  rw [sub_binPad 21 0 3 _ (by omega) (by omega)] at ha
  rw [sub_binPad 21 3 9 _ (by omega) (by omega)] at hb
  rw [sub_binPad 21 9 15 _ (by omega) (by omega)] at hc
  rw [binPad_length, sub_binPad 21 15 21 _ (by omega) (by omega)] at hd
  simp only [UTF8.Encode, c1, c2, c3, h2, if_false, if_true, hf, ha, hb, hc, hd,
    Option.bind_eq_bind, Option.some_bind]
  rw [fmtS_of_le _ _ (by simp [binPad_length]), fmtS_of_le _ _ (by simp [binPad_length]),
    fmtS_of_le _ _ (by simp [binPad_length]), fmtS_of_le _ _ (by simp [binPad_length])]
  simp

theorem UTF8_three_shape (A B C : GoString) (hA : A.length = 4) (hB : B.length = 6)
    (hC : C.length = 6) :
    ("1110".toList ++ A ++ "10".toList ++ B ++ "10".toList ++ C).length = 24
    ∧ sub ("1110".toList ++ A ++ "10".toList ++ B ++ "10".toList ++ C) 8 10 = "10".toList
    ∧ sub ("1110".toList ++ A ++ "10".toList ++ B ++ "10".toList ++ C) 16 18 = "10".toList := by
  obtain ⟨a0, A0, rfl, h0⟩ := exists_cons_of_length hA
  obtain ⟨a1, A1, rfl, h1⟩ := exists_cons_of_length h0
  obtain ⟨a2, A2, rfl, h2⟩ := exists_cons_of_length h1
  obtain ⟨a3, A3, rfl, h3⟩ := exists_cons_of_length h2
  obtain rfl : A3 = [] := List.length_eq_zero.mp h3
  obtain ⟨b0, B0, rfl, g0⟩ := exists_cons_of_length hB
  obtain ⟨b1, B1, rfl, g1⟩ := exists_cons_of_length g0
  obtain ⟨b2, B2, rfl, g2⟩ := exists_cons_of_length g1
  obtain ⟨b3, B3, rfl, g3⟩ := exists_cons_of_length g2
  obtain ⟨b4, B4, rfl, g4⟩ := exists_cons_of_length g3
  obtain ⟨b5, B5, rfl, g5⟩ := exists_cons_of_length g4
  obtain rfl : B5 = [] := List.length_eq_zero.mp g5
  refine ⟨?_, rfl, rfl⟩
  simp [hC]

/-- C1.  Round trip for Form8 at the driver codepoint `0x80`: the encoder
returns the 17-character string `11000010106000000`, which holds the
character `6`, and the decoder maps it to `0`, not to `0x80`; the same
happens at the driver codepoint `0x7ff`. -/
theorem UTF8_roundtrip_0x80 :
    UTF8.Encode 0x80 = some "11000010106000000".toList
    ∧ (UTF8.Encode 0x80).bind UTF8.Decode = some 0
    ∧ (UTF8.Encode 0x7ff).bind UTF8.Decode = some 0 := by
  decide

/-- C3.  Round trip for Form32: for every codepoint `c ≤ 0x10FFFF` (the
surrogate range included) `UTF32.Encode c` is the binary value of `c`
zero-padded to 32 bits and `UTF32.Decode` maps it back to `c`;
`UTF32.Encode 65` is `00000000000000000000000001000001`. -/
theorem UTF32_roundtrip (c : Nat) (hc : c ≤ 0x10FFFF) :
    UTF32.Encode c = binPad 32 c
    ∧ UTF32.Decode (UTF32.Encode c) = c
    ∧ UTF32.Encode 65 = "00000000000000000000000001000001".toList := by
  have hf := fmtB_eq_binPad 32 c (by omega) (by omega) (by omega)
  have hv := ParseUint_binPad 32 c (by omega) (by omega) (by omega)
  refine ⟨hf, ?_, by decide⟩
  simp only [UTF32.Decode, UTF32.Encode, hf, hv]

/-- C3, instance: the round trip at `65`. -/
theorem UTF32_roundtrip_witness : UTF32.Decode (UTF32.Encode 65) = 65 :=
  (UTF32_roundtrip 65 (by decide)).2.1

/-- C4.  Unit count of Form8 at `0x80`, a codepoint of the two-unit range:
the encoded string has 17 characters, not 16, and 17 is no multiple of the
unit width 8. -/
theorem UTF8_Encode_length_0x80 :
    (UTF8.Encode 0x80).map List.length = some 17 ∧ 17 % 8 ≠ 0 := by
  decide

/-- C5.  Two-unit layout of Form8 at `0x80`: the encoder returns
`110` `00010` `106` `000000`, which differs from the documented
`1100001010000000`. -/
theorem UTF8_Encode_0x80 :
    UTF8.Encode 0x80
      = some ("110".toList ++ "00010".toList ++ "106".toList ++ "000000".toList)
    ∧ UTF8.Encode 0x80 ≠ some "1100001010000000".toList := by
  decide

/-- C6.  Three-unit layout of Form8: for `0x800 ≤ c ≤ 0xFFFF`, with `p` the
binary representation of `c` zero-padded to 16 bits, `UTF8.Encode c` is
`1110` `p[0..4)` `10` `p[4..10)` `10` `p[10..16)`; it has 24 characters,
each of them `0` or `1`, and the second and the third unit begin with
`10`. -/
theorem UTF8_Encode_three_layout (c : Nat) (h1 : 0x800 ≤ c) (h2 : c ≤ 0xFFFF) :
    ∃ txt, UTF8.Encode c = some txt
      ∧ txt = "1110".toList ++ sub (binPad 16 c) 0 4 ++ "10".toList
          ++ sub (binPad 16 c) 4 10 ++ "10".toList ++ sub (binPad 16 c) 10 16
      ∧ txt.length = 24
      ∧ (∀ ch ∈ txt, ch = '0' ∨ ch = '1')
      ∧ sub txt 8 10 = "10".toList
      ∧ sub txt 16 18 = "10".toList := by
  have he := UTF8_Encode_three c h1 h2
  have hs := UTF8_three_shape (binPad 4 (c / 2 ^ 12)) (binPad 6 (c / 2 ^ 6)) (binPad 6 c)
    (binPad_length _ _) (binPad_length _ _) (binPad_length _ _)
  refine ⟨_, he, ?_, hs.1, ?_, hs.2.1, hs.2.2⟩
  · rw [sub_binPad 16 0 4 _ (by omega) (by omega), sub_binPad 16 4 10 _ (by omega) (by omega),
      sub_binPad 16 10 16 _ (by omega) (by omega)]
    simp
  · intro ch hch
    simp only [List.mem_append] at hch
    rcases hch with ((((hch | hch) | hch) | hch) | hch) | hch
    · revert ch; decide
    · exact binPad_bit _ _ ch hch
    · revert ch; decide
    · exact binPad_bit _ _ ch hch
    · revert ch; decide
    · exact binPad_bit _ _ ch hch

/-- C6, instance: the three-unit layout at `0x800`. -/
theorem UTF8_Encode_three_layout_witness :
    ∃ txt, UTF8.Encode 0x800 = some txt
      ∧ txt = "1110".toList ++ sub (binPad 16 0x800) 0 4 ++ "10".toList
          ++ sub (binPad 16 0x800) 4 10 ++ "10".toList ++ sub (binPad 16 0x800) 10 16
      ∧ txt.length = 24
      ∧ (∀ ch ∈ txt, ch = '0' ∨ ch = '1')
      ∧ sub txt 8 10 = "10".toList
      ∧ sub txt 16 18 = "10".toList :=
  UTF8_Encode_three_layout 0x800 (by decide) (by decide)

/-- C7.  Four-unit layout of Form8: for `0x10000 ≤ c ≤ 0x10FFFF`, with `p`
the binary representation of `c` zero-padded to 21 bits, `UTF8.Encode c` is
the 32-character string
`11110` `p[0..3)` `10` `p[3..9)` `10` `p[9..15)` `10` `p[15..21)`. -/
theorem UTF8_Encode_four_layout (c : Nat) (h1 : 0x10000 ≤ c) (h2 : c ≤ 0x10FFFF) :
    ∃ txt, UTF8.Encode c = some txt
      ∧ txt = "11110".toList ++ sub (binPad 21 c) 0 3 ++ "10".toList
          ++ sub (binPad 21 c) 3 9 ++ "10".toList ++ sub (binPad 21 c) 9 15 ++ "10".toList
          ++ sub (binPad 21 c) 15 21
      ∧ txt.length = 32 := by
  have he := UTF8_Encode_four c h1 h2
  refine ⟨_, he, ?_, ?_⟩
  · rw [sub_binPad 21 0 3 _ (by omega) (by omega), sub_binPad 21 3 9 _ (by omega) (by omega),
      sub_binPad 21 9 15 _ (by omega) (by omega), sub_binPad 21 15 21 _ (by omega) (by omega)]
    simp
  · simp [binPad_length]

/-- C7, instance: the four-unit layout at `0x10FFFF`. -/
theorem UTF8_Encode_four_layout_witness :
    ∃ txt, UTF8.Encode 0x10FFFF = some txt
      ∧ txt = "11110".toList ++ sub (binPad 21 0x10FFFF) 0 3 ++ "10".toList
          ++ sub (binPad 21 0x10FFFF) 3 9 ++ "10".toList ++ sub (binPad 21 0x10FFFF) 9 15
          ++ "10".toList ++ sub (binPad 21 0x10FFFF) 15 21
      ∧ txt.length = 32 :=
  UTF8_Encode_four_layout 0x10FFFF (by decide) (by decide)

/-- C10.  For every codepoint `c > 0x10FFFF`, `UTF8.Encode c` is the empty
string: no bit of `c` is written. -/
theorem UTF8_Encode_above_max (c : Nat) (h : 0x10FFFF < c) : UTF8.Encode c = some [] := by
  have c1 : ¬ c ≤ 0x7F := by omega
  have c2 : ¬ c ≤ 0x7FF := by omega
  have c3 : ¬ c ≤ 0xFFFF := by omega
  have c4 : ¬ c ≤ 0x10FFFF := by omega
  simp only [UTF8.Encode, c1, c2, c3, c4, if_false]

/-- C10, instance: the first value above the domain. -/
theorem UTF8_Encode_above_max_witness : UTF8.Encode 0x110000 = some [] :=
  UTF8_Encode_above_max 0x110000 (by decide)

/-! ## Decoding: which branch is taken, and when a slice is out of range -/

theorem HasPrefix_iff (s p : GoString) : HasPrefix s p = true ↔ p <+: s := by
  constructor
  · intro h
    simp only [HasPrefix, Bool.and_eq_true, decide_eq_true_eq, beq_iff_eq] at h
    rw [← h.2]
    exact List.take_prefix _ _
  · rintro ⟨t, rfl⟩
    simp [HasPrefix]

theorem HasPrefix_false_of (s p q : GoString) (hp : HasPrefix s p = true)
    (hlen : p.length ≤ q.length) (hpq : ¬ p <+: q) : HasPrefix s q = false := by
  cases hq : HasPrefix s q with
  | false => rfl
  | true =>
    exact absurd (List.prefix_of_prefix_length_le ((HasPrefix_iff s p).mp hp)
      ((HasPrefix_iff s q).mp hq) hlen) hpq

theorem HasPrefix_trans (s p q : GoString) (hq : HasPrefix s q = true) (hpq : p <+: q) :
    HasPrefix s p = true :=
  (HasPrefix_iff s p).mpr (hpq.trans ((HasPrefix_iff s q).mp hq))

theorem slice_none (s : GoString) (lo hi : Nat) (h : s.length < hi) : slice s lo hi = none := by
  have : ¬ (lo ≤ hi ∧ hi ≤ s.length) := by omega
  simp only [slice]
  rw [if_neg this]

theorem sliceFrom_none (s : GoString) (lo : Nat) (h : s.length < lo) :
    sliceFrom s lo = none := by
  have : ¬ (lo ≤ s.length ∧ s.length ≤ s.length) := by omega
  simp only [sliceFrom, slice]
  rw [if_neg this]

theorem UTF8_Decode_four_none (txt : GoString) (h : HasPrefix txt "11110".toList = true)
    (hl : txt.length < 26) : UTF8.Decode txt = none := by
  have hd := sliceFrom_none txt 26 hl
  simp only [UTF8.Decode, h, if_true, hd, Option.bind_eq_bind]
  cases slice txt 5 8 <;> cases slice txt 10 16 <;> cases slice txt 18 24 <;> rfl

theorem UTF8_Decode_three_none (txt : GoString) (h : HasPrefix txt "1110".toList = true)
    (hl : txt.length < 18) : UTF8.Decode txt = none := by
  have h4 := HasPrefix_false_of txt "1110".toList "11110".toList h (by decide) (by decide)
  have hd := sliceFrom_none txt 18 hl
  simp only [UTF8.Decode, h, h4, Bool.false_eq_true, if_false, if_true, hd, Option.bind_eq_bind]
  cases slice txt 4 8 <;> cases slice txt 10 16 <;> rfl

theorem UTF8_Decode_two_none (txt : GoString) (h : HasPrefix txt "110".toList = true)
    (hl : txt.length < 10) : UTF8.Decode txt = none := by
  have h4 := HasPrefix_false_of txt "110".toList "11110".toList h (by decide) (by decide)
  have h3 := HasPrefix_false_of txt "110".toList "1110".toList h (by decide) (by decide)
  have hd := sliceFrom_none txt 10 hl
  simp only [UTF8.Decode, h, h3, h4, Bool.false_eq_true, if_false, if_true, hd,
    Option.bind_eq_bind]
  cases slice txt 3 8 <;> rfl

/-- C13.  Truncated Form8 input: a sequence of `n` whole 8-bit units whose
first unit begins with the tag `110`, `1110` or `11110` and which has fewer
units than the tag declares (2, 3, 4) makes `UTF8.Decode` fail: a slice
expression is out of range, the call panics and no codepoint is returned. -/
theorem UTF8_Decode_truncated (txt : GoString) (n : Nat) (hlen : txt.length = 8 * n)
    (h : (HasPrefix txt "110".toList = true ∧ n < 2)
      ∨ (HasPrefix txt "1110".toList = true ∧ n < 3)
      ∨ (HasPrefix txt "11110".toList = true ∧ n < 4)) :
    UTF8.Decode txt = none := by
  rcases h with ⟨h, hn⟩ | ⟨h, hn⟩ | ⟨h, hn⟩
  · exact UTF8_Decode_two_none txt h (by omega)
  · exact UTF8_Decode_three_none txt h (by omega)
  · exact UTF8_Decode_four_none txt h (by omega)

/-- C13, instance: the tag `11110` followed by two continuation units. -/
theorem UTF8_Decode_truncated_witness :
    UTF8.Decode "111100001001000010000000".toList = none :=
  UTF8_Decode_truncated "111100001001000010000000".toList 3 (by decide)
    (Or.inr (Or.inr ⟨by decide, by decide⟩))

/-- C16.  A lone surrogate unit: on a 16-character string that begins with
the high-surrogate tag `110110`, `UTF16.Decode` fails: the slice `txt[22:]`
is out of range, the call panics and no codepoint is returned. -/
theorem UTF16_Decode_lone_high (txt : GoString) (hlen : txt.length = 16)
    (h : HasPrefix txt "110110".toList = true) : UTF16.Decode txt = none := by
  have h5 := HasPrefix_trans txt "11011".toList "110110".toList h (by decide)
  have hd := sliceFrom_none txt 22 (by omega)
  simp only [UTF16.Decode, h5, if_true, hd, Option.bind_eq_bind]
  cases slice txt 6 16 <;> rfl

/-- C16, instance: the high surrogate `0xD800` alone. -/
theorem UTF16_Decode_lone_high_witness : UTF16.Decode "1101100000000000".toList = none :=
  UTF16_Decode_lone_high "1101100000000000".toList (by decide) (by decide)

/-! ## Decoding strings of a given shape -/

theorem UTF8_Decode_plain (txt : GoString) (h5 : HasPrefix txt "11110".toList = false)
    (h4 : HasPrefix txt "1110".toList = false) (h3 : HasPrefix txt "110".toList = false) :
    UTF8.Decode txt = some (ParseUint txt).1 := by
  simp only [UTF8.Decode, h5, h4, h3, Bool.false_eq_true, if_false]

theorem UTF8_Decode_two_some (txt : GoString) (h : HasPrefix txt "110".toList = true)
    (hl : 10 ≤ txt.length) :
    UTF8.Decode txt = some (ParseUint (sub txt 3 8 ++ sub txt 10 txt.length)).1 := by
  have h5 := HasPrefix_false_of txt "110".toList "11110".toList h (by decide) (by decide)
  have h4 := HasPrefix_false_of txt "110".toList "1110".toList h (by decide) (by decide)
  simp only [UTF8.Decode, h, h4, h5, Bool.false_eq_true, if_false, if_true,
    slice_eq_sub txt 3 8 (by omega) (by omega), sliceFrom_eq_sub txt 10 hl,
    Option.bind_eq_bind, Option.some_bind]

theorem UTF8_Decode_three_some (txt : GoString) (h : HasPrefix txt "1110".toList = true)
    (hl : 18 ≤ txt.length) :
    UTF8.Decode txt
      = some (ParseUint (sub txt 4 8 ++ sub txt 10 16 ++ sub txt 18 txt.length)).1 := by
  have h5 := HasPrefix_false_of txt "1110".toList "11110".toList h (by decide) (by decide)
  simp only [UTF8.Decode, h, h5, Bool.false_eq_true, if_false, if_true,
    slice_eq_sub txt 4 8 (by omega) (by omega), slice_eq_sub txt 10 16 (by omega) (by omega),
    sliceFrom_eq_sub txt 18 hl, Option.bind_eq_bind, Option.some_bind]

theorem UTF8_Decode_four_some (txt : GoString) (h : HasPrefix txt "11110".toList = true)
    (hl : 26 ≤ txt.length) :
    UTF8.Decode txt = some (ParseUint (sub txt 5 8 ++ sub txt 10 16 ++ sub txt 18 24
      ++ sub txt 26 txt.length)).1 := by
  simp only [UTF8.Decode, h, if_true,
    slice_eq_sub txt 5 8 (by omega) (by omega), slice_eq_sub txt 10 16 (by omega) (by omega),
    slice_eq_sub txt 18 24 (by omega) (by omega), sliceFrom_eq_sub txt 26 hl,
    Option.bind_eq_bind, Option.some_bind]

theorem UTF8_Decode_two_shape (A m B : GoString) (hA : A.length = 5) (hm : m.length = 2) :
    UTF8.Decode ("110".toList ++ A ++ m ++ B) = some (ParseUint (A ++ B)).1 := by
  obtain ⟨a0, A0, rfl, ah0⟩ := exists_cons_of_length hA
  obtain ⟨a1, A1, rfl, ah1⟩ := exists_cons_of_length ah0
  obtain ⟨a2, A2, rfl, ah2⟩ := exists_cons_of_length ah1
  obtain ⟨a3, A3, rfl, ah3⟩ := exists_cons_of_length ah2
  obtain ⟨a4, A4, rfl, ah4⟩ := exists_cons_of_length ah3
  obtain rfl : A4 = [] := List.length_eq_zero.mp ah4
  obtain ⟨m0, M0, rfl, mh0⟩ := exists_cons_of_length hm
  obtain ⟨m1, M1, rfl, mh1⟩ := exists_cons_of_length mh0
  obtain rfl : M1 = [] := List.length_eq_zero.mp mh1
  rw [UTF8_Decode_two_some ("110".toList ++ [a0, a1, a2, a3, a4] ++ [m0, m1] ++ B) rfl (by simp)]
  simp [sub]

theorem UTF8_Decode_three_shape (A m B n C : GoString) (hA : A.length = 4)
    (hm : m.length = 2) (hB : B.length = 6) (hn : n.length = 2) :
    UTF8.Decode ("1110".toList ++ A ++ m ++ B ++ n ++ C)
      = some (ParseUint (A ++ B ++ C)).1 := by
  obtain ⟨a0, A0, rfl, ah0⟩ := exists_cons_of_length hA
  obtain ⟨a1, A1, rfl, ah1⟩ := exists_cons_of_length ah0
  obtain ⟨a2, A2, rfl, ah2⟩ := exists_cons_of_length ah1
  obtain ⟨a3, A3, rfl, ah3⟩ := exists_cons_of_length ah2
  obtain rfl : A3 = [] := List.length_eq_zero.mp ah3
  obtain ⟨m0, M0, rfl, mh0⟩ := exists_cons_of_length hm
  obtain ⟨m1, M1, rfl, mh1⟩ := exists_cons_of_length mh0
  obtain rfl : M1 = [] := List.length_eq_zero.mp mh1
  obtain ⟨b0, B0, rfl, bh0⟩ := exists_cons_of_length hB
  obtain ⟨b1, B1, rfl, bh1⟩ := exists_cons_of_length bh0
  obtain ⟨b2, B2, rfl, bh2⟩ := exists_cons_of_length bh1
  obtain ⟨b3, B3, rfl, bh3⟩ := exists_cons_of_length bh2
  obtain ⟨b4, B4, rfl, bh4⟩ := exists_cons_of_length bh3
  obtain ⟨b5, B5, rfl, bh5⟩ := exists_cons_of_length bh4
  obtain rfl : B5 = [] := List.length_eq_zero.mp bh5
  obtain ⟨n0, N0, rfl, nh0⟩ := exists_cons_of_length hn
  obtain ⟨n1, N1, rfl, nh1⟩ := exists_cons_of_length nh0
  obtain rfl : N1 = [] := List.length_eq_zero.mp nh1
  rw [UTF8_Decode_three_some ("1110".toList ++ [a0, a1, a2, a3] ++ [m0, m1] ++ [b0, b1, b2, b3, b4, b5]
      ++ [n0, n1] ++ C) rfl (by simp)]
  simp [sub]

theorem UTF8_Decode_four_shape (A m B n C o D : GoString) (hA : A.length = 3)
    (hm : m.length = 2) (hB : B.length = 6) (hn : n.length = 2) (hC : C.length = 6)
    (ho : o.length = 2) :
    UTF8.Decode ("11110".toList ++ A ++ m ++ B ++ n ++ C ++ o ++ D)
      = some (ParseUint (A ++ B ++ C ++ D)).1 := by
  obtain ⟨a0, A0, rfl, ah0⟩ := exists_cons_of_length hA
  obtain ⟨a1, A1, rfl, ah1⟩ := exists_cons_of_length ah0
  obtain ⟨a2, A2, rfl, ah2⟩ := exists_cons_of_length ah1
  obtain rfl : A2 = [] := List.length_eq_zero.mp ah2
  obtain ⟨m0, M0, rfl, mh0⟩ := exists_cons_of_length hm
  obtain ⟨m1, M1, rfl, mh1⟩ := exists_cons_of_length mh0
  obtain rfl : M1 = [] := List.length_eq_zero.mp mh1
  obtain ⟨b0, B0, rfl, bh0⟩ := exists_cons_of_length hB
  obtain ⟨b1, B1, rfl, bh1⟩ := exists_cons_of_length bh0
  obtain ⟨b2, B2, rfl, bh2⟩ := exists_cons_of_length bh1
  obtain ⟨b3, B3, rfl, bh3⟩ := exists_cons_of_length bh2
  obtain ⟨b4, B4, rfl, bh4⟩ := exists_cons_of_length bh3
  obtain ⟨b5, B5, rfl, bh5⟩ := exists_cons_of_length bh4
  obtain rfl : B5 = [] := List.length_eq_zero.mp bh5
  obtain ⟨n0, N0, rfl, nh0⟩ := exists_cons_of_length hn
  obtain ⟨n1, N1, rfl, nh1⟩ := exists_cons_of_length nh0
  obtain rfl : N1 = [] := List.length_eq_zero.mp nh1
  obtain ⟨c0, C0, rfl, ch0⟩ := exists_cons_of_length hC
  obtain ⟨c1, C1, rfl, ch1⟩ := exists_cons_of_length ch0
  obtain ⟨c2, C2, rfl, ch2⟩ := exists_cons_of_length ch1
  obtain ⟨c3, C3, rfl, ch3⟩ := exists_cons_of_length ch2
  obtain ⟨c4, C4, rfl, ch4⟩ := exists_cons_of_length ch3
  obtain ⟨c5, C5, rfl, ch5⟩ := exists_cons_of_length ch4
  obtain rfl : C5 = [] := List.length_eq_zero.mp ch5
  obtain ⟨o0, O0, rfl, oh0⟩ := exists_cons_of_length ho
  obtain ⟨o1, O1, rfl, oh1⟩ := exists_cons_of_length oh0
  obtain rfl : O1 = [] := List.length_eq_zero.mp oh1
  rw [UTF8_Decode_four_some ("11110".toList ++ [a0, a1, a2] ++ [m0, m1] ++ [b0, b1, b2, b3, b4, b5]
      ++ [n0, n1] ++ [c0, c1, c2, c3, c4, c5] ++ [o0, o1] ++ D) rfl (by simp)]
  simp [sub]

theorem UTF16_Decode_shape (t A m B : GoString) (ht : t.length = 1) (hA : A.length = 10)
    (hm : m.length = 6) :
    UTF16.Decode ("11011".toList ++ t ++ A ++ m ++ B)
      = some (((ParseUint (A ++ B)).1 + 0x10000) % 2 ^ 64) := by
  obtain ⟨t0, T0, rfl, th0⟩ := exists_cons_of_length ht
  obtain rfl : T0 = [] := List.length_eq_zero.mp th0
  obtain ⟨a0, A0, rfl, ah0⟩ := exists_cons_of_length hA
  obtain ⟨a1, A1, rfl, ah1⟩ := exists_cons_of_length ah0
  obtain ⟨a2, A2, rfl, ah2⟩ := exists_cons_of_length ah1
  obtain ⟨a3, A3, rfl, ah3⟩ := exists_cons_of_length ah2
  obtain ⟨a4, A4, rfl, ah4⟩ := exists_cons_of_length ah3
  obtain ⟨a5, A5, rfl, ah5⟩ := exists_cons_of_length ah4
  obtain ⟨a6, A6, rfl, ah6⟩ := exists_cons_of_length ah5
  obtain ⟨a7, A7, rfl, ah7⟩ := exists_cons_of_length ah6
  obtain ⟨a8, A8, rfl, ah8⟩ := exists_cons_of_length ah7
  obtain ⟨a9, A9, rfl, ah9⟩ := exists_cons_of_length ah8
  obtain rfl : A9 = [] := List.length_eq_zero.mp ah9
  obtain ⟨m0, M0, rfl, mh0⟩ := exists_cons_of_length hm
  obtain ⟨m1, M1, rfl, mh1⟩ := exists_cons_of_length mh0
  obtain ⟨m2, M2, rfl, mh2⟩ := exists_cons_of_length mh1
  obtain ⟨m3, M3, rfl, mh3⟩ := exists_cons_of_length mh2
  obtain ⟨m4, M4, rfl, mh4⟩ := exists_cons_of_length mh3
  obtain ⟨m5, M5, rfl, mh5⟩ := exists_cons_of_length mh4
  obtain rfl : M5 = [] := List.length_eq_zero.mp mh5
  have hp : HasPrefix ("11011".toList ++ [t0] ++ [a0, a1, a2, a3, a4, a5, a6, a7, a8, a9]
      ++ [m0, m1, m2, m3, m4, m5] ++ B) "11011".toList = true := rfl
  have hs1 : slice ("11011".toList ++ [t0] ++ [a0, a1, a2, a3, a4, a5, a6, a7, a8, a9]
      ++ [m0, m1, m2, m3, m4, m5] ++ B) 6 16 = some [a0, a1, a2, a3, a4, a5, a6, a7, a8, a9] := by
    simp [slice]
  have hs2 : sliceFrom ("11011".toList ++ [t0] ++ [a0, a1, a2, a3, a4, a5, a6, a7, a8, a9]
      ++ [m0, m1, m2, m3, m4, m5] ++ B) 22 = some B := by
    simp [sliceFrom, slice]
  simp only [UTF16.Decode, hp, if_true, hs1, hs2, Option.bind_eq_bind, Option.some_bind]

theorem binPad_split (a b u : Nat) : binPad a (u / 2 ^ b) ++ binPad b u = binPad (a + b) u := by
  have := List.take_append_drop a (binPad (a + b) u)
  rwa [binPad_take, binPad_drop] at this

/-- C14, counterexample: two units after a leading `0` are not rejected;
they are read as one 16-bit number. -/
theorem UTF8_Decode_overlong_counterexample :
    UTF8.Decode ("01000001".toList ++ "01000001".toList) = some 0x4141 := by
  decide

/-- C14, as the code has it.  Over-long Form8 input is not rejected: on a
sequence of `n` whole 8-bit units with more units than the leading tag
implies, `UTF8.Decode` returns the value `ParseUint` gives for the characters
left once the tag of the first unit and the first two characters of each
declared continuation unit are removed, the surplus units being read
whole. -/
theorem UTF8_Decode_overlong (txt : GoString) (n : Nat) (hlen : txt.length = 8 * n) :
    (HasPrefix txt "0".toList = true → 1 < n → UTF8.Decode txt = some (ParseUint txt).1)
    ∧ (HasPrefix txt "110".toList = true → 2 < n →
        UTF8.Decode txt = some (ParseUint (sub txt 3 8 ++ sub txt 10 (8 * n))).1)
    ∧ (HasPrefix txt "1110".toList = true → 3 < n →
        UTF8.Decode txt
          = some (ParseUint (sub txt 4 8 ++ sub txt 10 16 ++ sub txt 18 (8 * n))).1)
    ∧ (HasPrefix txt "11110".toList = true → 4 < n →
        UTF8.Decode txt = some (ParseUint (sub txt 5 8 ++ sub txt 10 16 ++ sub txt 18 24
          ++ sub txt 26 (8 * n))).1) := by
  refine ⟨?_, ?_, ?_, ?_⟩
  · intro h _
    exact UTF8_Decode_plain txt
      (HasPrefix_false_of txt "0".toList "11110".toList h (by decide) (by decide))
      (HasPrefix_false_of txt "0".toList "1110".toList h (by decide) (by decide))
      (HasPrefix_false_of txt "0".toList "110".toList h (by decide) (by decide))
  · intro h hn
    rw [UTF8_Decode_two_some txt h (by omega), hlen]
  · intro h hn
    rw [UTF8_Decode_three_some txt h (by omega), hlen]
  · intro h hn
    rw [UTF8_Decode_four_some txt h (by omega), hlen]

/-- C14, instance: two units after a leading `0`. -/
theorem UTF8_Decode_overlong_witness :
    UTF8.Decode "0100000101000001".toList
      = some (ParseUint "0100000101000001".toList).1 :=
  (UTF8_Decode_overlong "0100000101000001".toList 2 (by decide)).1 (by decide) (by decide)

/-- C15, counterexample: the second unit `00000000` does not begin with
`10`, and the string is decoded to `0x80` all the same. -/
theorem UTF8_Decode_markers_counterexample :
    UTF8.Decode ("11000010".toList ++ "00000000".toList) = some 0x80 := by
  decide

/-- C15, as the code has it.  Continuation markers are not checked: on a
Form8 bit-string with a multi-unit tag and exactly the declared number of
units, `UTF8.Decode` returns the value of the payload bits whatever the
first two characters `m`, `n`, `o` of the later units are. -/
theorem UTF8_Decode_markers_ignored (m n o : GoString) (hm : m.length = 2)
    (hn : n.length = 2) (ho : o.length = 2) :
    (∀ x y, x < 2 ^ 5 → y < 2 ^ 6 →
      UTF8.Decode ("110".toList ++ binPad 5 x ++ m ++ binPad 6 y) = some (x * 2 ^ 6 + y))
    ∧ (∀ x y z, x < 2 ^ 4 → y < 2 ^ 6 → z < 2 ^ 6 →
      UTF8.Decode ("1110".toList ++ binPad 4 x ++ m ++ binPad 6 y ++ n ++ binPad 6 z)
        = some (x * 2 ^ 12 + y * 2 ^ 6 + z))
    ∧ (∀ x y z w, x < 2 ^ 3 → y < 2 ^ 6 → z < 2 ^ 6 → w < 2 ^ 6 →
      UTF8.Decode ("11110".toList ++ binPad 3 x ++ m ++ binPad 6 y ++ n ++ binPad 6 z
        ++ o ++ binPad 6 w) = some (x * 2 ^ 18 + y * 2 ^ 12 + z * 2 ^ 6 + w)) := by
  refine ⟨?_, ?_, ?_⟩
  · intro x y hx hy
    rw [UTF8_Decode_two_shape _ _ _ (binPad_length _ _) hm, binPad_append 5 6 x y hy,
      ParseUint_binPad 11 _ (by omega) (by omega) (by omega)]
  · intro x y z hx hy hz
    rw [UTF8_Decode_three_shape _ _ _ _ _ (binPad_length _ _) hm (binPad_length _ _) hn,
      binPad_append 4 6 x y hy, binPad_append 10 6 _ z hz,
      ParseUint_binPad 16 _ (by omega) (by omega) (by omega)]
    congr 1
    ring
  · intro x y z w hx hy hz hw
    rw [UTF8_Decode_four_shape _ _ _ _ _ _ _ (binPad_length _ _) hm (binPad_length _ _) hn
        (binPad_length _ _) ho,
      binPad_append 3 6 x y hy, binPad_append 9 6 _ z hz, binPad_append 15 6 _ w hw,
      ParseUint_binPad 21 _ (by omega) (by omega) (by omega)]
    congr 1
    ring

/-- C15, instance: the two-unit string of payload `00010 000000` with the
marker `00` in place of `10`. -/
theorem UTF8_Decode_markers_ignored_witness :
    UTF8.Decode ("110".toList ++ binPad 5 2 ++ "00".toList ++ binPad 6 0)
      = some (2 * 2 ^ 6 + 0) :=
  (UTF8_Decode_markers_ignored "00".toList "00".toList "00".toList rfl rfl rfl).1 2 0
    (by decide) (by decide)

/-- C17, counterexample: a low surrogate followed by a unit that is no
surrogate is decoded to `0x10000`. -/
theorem UTF16_Decode_pairing_counterexample :
    UTF16.Decode ("1101110000000000".toList ++ "0000000000000000".toList) = some 0x10000 := by
  decide

/-- C17, as the code has it.  Surrogate pairing is not validated: on two
16-bit units of which the first begins with `11011`, `UTF16.Decode` does not
fail; whatever the sixth character `t` of the first unit and the first six
characters `m` of the second unit are, it returns `0x10000` plus the 20-bit
value `v` spelled by the last ten characters of each unit. -/
theorem UTF16_Decode_pairing_unchecked (t m : GoString) (ht : t.length = 1)
    (hm : m.length = 6) (v : Nat) (hv : v < 2 ^ 20) :
    UTF16.Decode ("11011".toList ++ t ++ binPad 10 (v / 2 ^ 10) ++ m ++ binPad 10 v)
      = some (v + 0x10000) := by
  rw [UTF16_Decode_shape _ _ _ _ ht (binPad_length _ _) hm, binPad_split 10 10 v,
    ParseUint_binPad 20 v (by omega) (by omega) hv]
  have e : (v + 0x10000) % 2 ^ 64 = v + 0x10000 := by omega
  simp only [e]

/-- C17, instance: a high surrogate followed by a unit that is no
surrogate. -/
theorem UTF16_Decode_pairing_unchecked_witness :
    UTF16.Decode ("11011".toList ++ "0".toList ++ binPad 10 (5 / 2 ^ 10) ++ "000000".toList
      ++ binPad 10 5) = some (5 + 0x10000) :=
  UTF16_Decode_pairing_unchecked "0".toList "000000".toList rfl rfl 5 (by decide)

/-- C19.  `UTF8.Decode` inverts the documented layout: for every codepoint
`c ≤ 0x10FFFF`, decoding the bit-string the layout table prescribes for `c`
returns `c`; `1100001010000000` is decoded to `0x80` and `01111111` to
`0x7f`. -/
theorem UTF8_Decode_layoutTable (c : Nat) (hc : c ≤ 0x10FFFF) :
    UTF8.Decode (layoutTable c) = some c
    ∧ UTF8.Decode "1100001010000000".toList = some 0x80
    ∧ UTF8.Decode "01111111".toList = some 0x7f := by
  refine ⟨?_, by decide, by decide⟩
  by_cases h1 : c ≤ 0x7F
  · have hp : HasPrefix ("0".toList ++ binPad 7 c) "0".toList = true :=
      (HasPrefix_iff _ _).mpr (List.prefix_append _ _)
    have e0 : "0".toList = binPad 1 0 := by decide
    have hj : "0".toList ++ binPad 7 c = binPad 8 c := by
      rw [e0, binPad_append 1 7 0 c (by omega)]
      simp
    simp only [layoutTable, h1, if_true]
    rw [UTF8_Decode_plain _
      (HasPrefix_false_of _ "0".toList "11110".toList hp (by decide) (by decide))
      (HasPrefix_false_of _ "0".toList "1110".toList hp (by decide) (by decide))
      (HasPrefix_false_of _ "0".toList "110".toList hp (by decide) (by decide)),
      hj, ParseUint_binPad 8 c (by omega) (by omega) (by omega)]
  · by_cases h2 : c ≤ 0x7FF
    · have ea : sub (binPad 11 c) 0 5 = binPad 5 (c / 2 ^ 6) :=
        sub_binPad 11 0 5 c (by omega) (by omega)
      have eb : sub (binPad 11 c) 5 11 = binPad 6 (c / 2 ^ 0) :=
        sub_binPad 11 5 11 c (by omega) (by omega)
      simp only [layoutTable, h1, h2, if_true, if_false, ea, eb, pow_zero, Nat.div_one]
      rw [UTF8_Decode_two_shape _ "10".toList _ (binPad_length _ _) rfl, binPad_split 5 6 c,
        ParseUint_binPad 11 c (by omega) (by omega) (by omega)]
    · by_cases h3 : c ≤ 0xFFFF
      · have ea : sub (binPad 16 c) 0 4 = binPad 4 (c / 2 ^ 6 / 2 ^ 6) := by
          rw [sub_binPad 16 0 4 c (by omega) (by omega), Nat.div_div_eq_div_mul]
          rfl
        have eb : sub (binPad 16 c) 4 10 = binPad 6 (c / 2 ^ 6) :=
          sub_binPad 16 4 10 c (by omega) (by omega)
        have ec : sub (binPad 16 c) 10 16 = binPad 6 (c / 2 ^ 0) :=
          sub_binPad 16 10 16 c (by omega) (by omega)
        simp only [layoutTable, h1, h2, h3, if_true, if_false, ea, eb, ec, pow_zero,
          Nat.div_one]
        rw [UTF8_Decode_three_shape _ "10".toList _ "10".toList _ (binPad_length _ _) rfl
            (binPad_length _ _) rfl,
          binPad_split 4 6 (c / 2 ^ 6), binPad_split 10 6 c,
          ParseUint_binPad 16 c (by omega) (by omega) (by omega)]
      · have ea : sub (binPad 21 c) 0 3 = binPad 3 (c / 2 ^ 6 / 2 ^ 6 / 2 ^ 6) := by
          rw [sub_binPad 21 0 3 c (by omega) (by omega), Nat.div_div_eq_div_mul,
            Nat.div_div_eq_div_mul]
          rfl
        have eb : sub (binPad 21 c) 3 9 = binPad 6 (c / 2 ^ 6 / 2 ^ 6) := by
          rw [sub_binPad 21 3 9 c (by omega) (by omega), Nat.div_div_eq_div_mul]
          rfl
        have ec : sub (binPad 21 c) 9 15 = binPad 6 (c / 2 ^ 6) :=
          sub_binPad 21 9 15 c (by omega) (by omega)
        have ed : sub (binPad 21 c) 15 21 = binPad 6 (c / 2 ^ 0) :=
          sub_binPad 21 15 21 c (by omega) (by omega)
        simp only [layoutTable, h1, h2, h3, if_true, if_false, ea, eb, ec, ed, pow_zero,
          Nat.div_one]
        rw [UTF8_Decode_four_shape _ "10".toList _ "10".toList _ "10".toList _
            (binPad_length _ _) rfl (binPad_length _ _) rfl (binPad_length _ _) rfl,
          binPad_split 3 6 (c / 2 ^ 6 / 2 ^ 6), binPad_split 9 6 (c / 2 ^ 6),
          binPad_split 15 6 c, ParseUint_binPad 21 c (by omega) (by omega) (by omega)]

/-- C19, instance: the layout of `0x80` is decoded to `0x80`. -/
theorem UTF8_Decode_layoutTable_witness : UTF8.Decode (layoutTable 0x80) = some 0x80 :=
  (UTF8_Decode_layoutTable 0x80 (by decide)).1

/-! ## Encoded strings determine the codepoint -/

theorem binPad_eq_mod (k x y : Nat) (hk : 1 ≤ k) (hk64 : k ≤ 64)
    (h : binPad k x = binPad k y) : x % 2 ^ k = y % 2 ^ k := by
  rw [← binPad_mod k x, ← binPad_mod k y] at h
  exact binPad_inj k _ _ hk hk64 (Nat.mod_lt _ (Nat.two_pow_pos k))
    (Nat.mod_lt _ (Nat.two_pow_pos k)) h

theorem UTF8_Encode_length (c : Nat) (hc : c ≤ 0x10FFFF) :
    (UTF8.Encode c).map List.length
      = some (if c ≤ 0x7F then 8 else if c ≤ 0x7FF then 17 else if c ≤ 0xFFFF then 24
          else 32) := by
  by_cases h1 : c ≤ 0x7F
  · rw [UTF8_Encode_one c h1]
    simp [h1, binPad_length]
  · by_cases h2 : c ≤ 0x7FF
    · rw [UTF8_Encode_two c (by omega) h2]
      simp [h1, h2, binPad_length]
    · by_cases h3 : c ≤ 0xFFFF
      · rw [UTF8_Encode_three c (by omega) h3]
        simp [h1, h2, h3, binPad_length]
      · rw [UTF8_Encode_four c (by omega) hc]
        simp [h1, h2, h3, binPad_length]

/-- C18.  Form8 encoding is lossless: two codepoints of `[0, 0x10FFFF]`
with the same encoded string are equal, within a range and across ranges. -/
theorem UTF8_Encode_lossless (c1 c2 : Nat) (h1 : c1 ≤ 0x10FFFF) (h2 : c2 ≤ 0x10FFFF)
    (h : UTF8.Encode c1 = UTF8.Encode c2) : c1 = c2 := by
  have hl : (if c1 ≤ 0x7F then 8 else if c1 ≤ 0x7FF then 17 else if c1 ≤ 0xFFFF then 24
      else 32) = (if c2 ≤ 0x7F then 8 else if c2 ≤ 0x7FF then 17 else if c2 ≤ 0xFFFF then 24
      else 32) := by
    have a := UTF8_Encode_length c1 h1
    have b := UTF8_Encode_length c2 h2
    rw [h, b] at a
    exact (Option.some.inj a).symm
  by_cases a1 : c1 ≤ 0x7F
  · have b1 : c2 ≤ 0x7F := by
      rw [if_pos a1] at hl
      split_ifs at hl with q <;> first | exact q | omega
    rw [UTF8_Encode_one c1 a1, UTF8_Encode_one c2 b1] at h
    exact binPad_inj 8 c1 c2 (by omega) (by omega) (by omega) (by omega) (Option.some.inj h)
  · by_cases a2 : c1 ≤ 0x7FF
    · have b : ¬ c2 ≤ 0x7F ∧ c2 ≤ 0x7FF := by
        rw [if_neg a1, if_pos a2] at hl
        split_ifs at hl with q r <;> first | exact ⟨q, r⟩ | omega
      rw [UTF8_Encode_two c1 (by omega) a2, UTF8_Encode_two c2 (by omega) b.2] at h
      have h0 := Option.some.inj h
      simp only [List.append_assoc] at h0
      obtain ⟨ha, hr⟩ := List.append_inj (List.append_cancel_left h0) (by simp [binPad_length])
      have hb := List.append_cancel_left hr
      have ma := binPad_eq_mod 5 _ _ (by omega) (by omega) ha
      have mb := binPad_eq_mod 6 _ _ (by omega) (by omega) hb
      omega
    · by_cases a3 : c1 ≤ 0xFFFF
      · have b : ¬ c2 ≤ 0x7FF ∧ c2 ≤ 0xFFFF := by
          rw [if_neg a1, if_neg a2, if_pos a3] at hl
          split_ifs at hl with q r t <;> first | exact ⟨r, t⟩ | omega
        rw [UTF8_Encode_three c1 (by omega) a3, UTF8_Encode_three c2 (by omega) b.2] at h
        have h0 := Option.some.inj h
        simp only [List.append_assoc] at h0
        obtain ⟨ha, hr⟩ := List.append_inj (List.append_cancel_left h0)
          (by simp [binPad_length])
        obtain ⟨hb, hr2⟩ := List.append_inj (List.append_cancel_left hr)
          (by simp [binPad_length])
        have hc := List.append_cancel_left hr2
        have ma := binPad_eq_mod 4 _ _ (by omega) (by omega) ha
        have mb := binPad_eq_mod 6 _ _ (by omega) (by omega) hb
        have mc := binPad_eq_mod 6 _ _ (by omega) (by omega) hc
        omega
      · have b : ¬ c2 ≤ 0xFFFF := by
          rw [if_neg a1, if_neg a2, if_neg a3] at hl
          split_ifs at hl with q r t <;> first | exact t | omega
        rw [UTF8_Encode_four c1 (by omega) h1, UTF8_Encode_four c2 (by omega) h2] at h
        have h0 := Option.some.inj h
        simp only [List.append_assoc] at h0
        obtain ⟨ha, hr⟩ := List.append_inj (List.append_cancel_left h0)
          (by simp [binPad_length])
        obtain ⟨hb, hr2⟩ := List.append_inj (List.append_cancel_left hr)
          (by simp [binPad_length])
        obtain ⟨hc, hr3⟩ := List.append_inj (List.append_cancel_left hr2)
          (by simp [binPad_length])
        have hd := List.append_cancel_left hr3
        have ma := binPad_eq_mod 3 _ _ (by omega) (by omega) ha
        have mb := binPad_eq_mod 6 _ _ (by omega) (by omega) hb
        have mc := binPad_eq_mod 6 _ _ (by omega) (by omega) hc
        have md := binPad_eq_mod 6 _ _ (by omega) (by omega) hd
        omega

/-- C18, instance: `0x41` is the only codepoint encoded as `01000001`. -/
theorem UTF8_Encode_lossless_witness :
    UTF8.Encode 0x41 = UTF8.Encode (0x40 + 1) ∧ 0x41 = 0x40 + 1 :=
  ⟨rfl, UTF8_Encode_lossless 0x41 (0x40 + 1) (by decide) (by decide) rfl⟩

/-! ## Inputs outside the domain -/

/-- C11.  The surrogate `0xD800` is not refused by `UTF8.Encode`: it is
encoded in three units, `11101101` `10100000` `10000000`, like any other
codepoint of `0x800 .. 0xFFFF`; the result is neither a panic nor the empty
string. -/
theorem UTF8_Encode_0xD800 :
    UTF8.Encode 0xD800 = some "111011011010000010000000".toList
    ∧ UTF8.Encode 0xD800 ≠ some []
    ∧ UTF8.Encode 0xD800 ≠ none := by
  decide

/-- C12.  The value `0x110000` is not refused by `UTF32.Encode`: it is
written as 32 binary digits, which `UTF32.Decode` reads back as
`0x110000`. -/
theorem UTF32_Encode_0x110000 :
    UTF32.Encode 0x110000 = "00000000000100010000000000000000".toList
    ∧ UTF32.Encode 0x110000 ≠ []
    ∧ UTF32.Decode (UTF32.Encode 0x110000) = 0x110000 := by
  decide

/-- C20.  A failed encoding is decoded as codepoint `0`: both decoders map
the empty string to `0`, so `UTF8` maps every `c > 0x10FFFF`, and `UTF16`
every `c` above `0x10FFFF` or in `[0xD800, 0xDFFF]`, through `Encode` and
`Decode` to `0`, which is also the result for `c = 0`. -/
theorem Decode_of_failed_Encode :
    UTF8.Decode [] = some 0
    ∧ UTF16.Decode [] = some 0
    ∧ (∀ c, 0x10FFFF < c → (UTF8.Encode c).bind UTF8.Decode = some 0)
    ∧ (∀ c, 0x10FFFF < c ∨ (0xD800 ≤ c ∧ c ≤ 0xDFFF) →
        (UTF16.Encode c).bind UTF16.Decode = some 0)
    ∧ (UTF8.Encode 0).bind UTF8.Decode = some 0
    ∧ (UTF16.Encode 0).bind UTF16.Decode = some 0 := by
  have d8 : UTF8.Decode [] = some 0 := by decide
  have d16 : UTF16.Decode [] = some 0 := by decide
  refine ⟨d8, d16, ?_, ?_, by decide, by decide⟩
  · intro c hc
    have c1 : ¬ c ≤ 0x7F := by omega
    have c2 : ¬ c ≤ 0x7FF := by omega
    have c3 : ¬ c ≤ 0xFFFF := by omega
    have c4 : ¬ c ≤ 0x10FFFF := by omega
    have he : UTF8.Encode c = some [] := by
      simp only [UTF8.Encode, c1, c2, c3, c4, if_false]
    rw [he, Option.some_bind, d8]
  · intro c hc
    have he : UTF16.Encode c = some [] := by
      rcases hc with hc | hc
      · have c1 : ¬ c ≤ 0xFFFF := by omega
        have c2 : ¬ c ≤ 0x10FFFF := by omega
        simp only [UTF16.Encode, c1, c2, if_false]
      · have c1 : c ≤ 0xFFFF := by omega
        simp only [UTF16.Encode, c1, hc, and_self, if_true]
    rw [he, Option.some_bind, d16]

/-- C20, instance: the first value above the domain and the first
surrogate. -/
theorem Decode_of_failed_Encode_witness :
    (UTF8.Encode 0x110000).bind UTF8.Decode = some 0
    ∧ (UTF16.Encode 0xD800).bind UTF16.Decode = some 0 :=
  ⟨Decode_of_failed_Encode.2.2.1 0x110000 (by decide),
    Decode_of_failed_Encode.2.2.2.1 0xD800 (Or.inr ⟨by decide, by decide⟩)⟩

end Codepoint
